import Mathlib

/-!
Verification of the speech-to-text repository's core components, shallowly
embedded from the TypeScript source:

* `detectAudioFormat`, `convertToWav`, `ensureCompatibleFormat` and the
  streaming route handler, from `src/server/routes.ts`;
* the client-side stream decoder `transcribeAudio`, from the client API
  module (`src/unnamed/part_000`).

Byte buffers are modelled as `List Nat`; JS strings as `List Char` where the
proofs compute on their contents, and as `String` where they are opaque
labels.  Filesystem state is the list of paths currently present.  Each
fallible external step (file writes, process spawn, file reads) is driven by
an explicit environment record, so one Lean function covers every exit path
of the corresponding JS function.
-/

/-! ### FormatSniffer (`detectAudioFormat`, src/server/routes.ts lines 19-42) -/

/-- The `AudioFormat` union type of the source. -/
inductive AudioFormat
  | wav | mp3 | webm | mp4 | m4a | ogg | unknown
deriving DecidableEq

/-- Direct embedding of `detectAudioFormat` (src/server/routes.ts lines 21-42):
the early-return chain becomes an if-chain, and `buffer[i]` becomes
`List.getD buffer i 0` (the length guard makes every inspected index in
bounds, so the default is never consulted). -/
def detectAudioFormat (buffer : List Nat) : AudioFormat :=
  if buffer.length < 12 then .unknown
  else if buffer.getD 0 0 = 0x52 ∧ buffer.getD 1 0 = 0x49 ∧ buffer.getD 2 0 = 0x46 ∧
      buffer.getD 3 0 = 0x46 then .wav
  else if buffer.getD 0 0 = 0x1a ∧ buffer.getD 1 0 = 0x45 ∧ buffer.getD 2 0 = 0xdf ∧
      buffer.getD 3 0 = 0xa3 then .webm
  else if (buffer.getD 0 0 = 0xff ∧
        (buffer.getD 1 0 = 0xfb ∨ buffer.getD 1 0 = 0xfa ∨ buffer.getD 1 0 = 0xf3)) ∨
      (buffer.getD 0 0 = 0x49 ∧ buffer.getD 1 0 = 0x44 ∧ buffer.getD 2 0 = 0x33) then .mp3
  else if buffer.getD 4 0 = 0x66 ∧ buffer.getD 5 0 = 0x74 ∧ buffer.getD 6 0 = 0x79 ∧
      buffer.getD 7 0 = 0x70 then .mp4
  else if buffer.getD 0 0 = 0x4f ∧ buffer.getD 1 0 = 0x67 ∧ buffer.getD 2 0 = 0x67 ∧
      buffer.getD 3 0 = 0x53 then .ogg
  else .unknown

/-- The classification rule as the spec's signature table states it (spec
section 4.1): a short-buffer guard, then the five signature rows tried in
priority order with the first match winning, `unknown` as the fallthrough.
Prefix rows are written as `List.IsPrefix` tests; this definition follows
the spec's words and is compared against `detectAudioFormat` (the code's
version) in the claim theorem. -/
def classifySpec (bs : List Nat) : AudioFormat :=
  if bs.length < 12 then .unknown
  else if [0x52, 0x49, 0x46, 0x46] <+: bs then .wav
  else if [0x1a, 0x45, 0xdf, 0xa3] <+: bs then .webm
  else if (bs.getD 0 0 = 0xff ∧ bs.getD 1 0 ∈ ([0xfb, 0xfa, 0xf3] : List Nat)) ∨
      [0x49, 0x44, 0x33] <+: bs then .mp3
  else if [0x66, 0x74, 0x79, 0x70] <+: bs.drop 4 then .mp4
  else if [0x4f, 0x67, 0x67, 0x53] <+: bs then .ogg
  else .unknown

/-! ### FormatConverter (`convertToWav`, src/server/routes.ts lines 44-76)

The filesystem is the list of paths currently present.  `ConvEnv` fixes the
outcome of each fallible external step of one `convertToWav` call, so that
quantifying over `ConvEnv` covers every exit path of the function. -/

/-- Outcome of `spawn("ffmpeg", ...)`: either the `error` event fired (the
process could not be launched) or the `close` event fired with an exit code. -/
inductive SpawnOutcome
  | launchError
  | exited (code : Int)
deriving DecidableEq

/-- Environment of one `convertToWav` call: which external steps succeed.
`partialInput` records whether a failed `writeFile` still left a file at the
input path; `outputCreated` whether the external process left a file at the
output path (it may do so even on a non-zero exit). -/
structure ConvEnv where
  writeOk : Bool
  partialInput : Bool
  spawn : SpawnOutcome
  outputCreated : Bool
  readOk : Bool
  outputBytes : List Nat

/-- The errors `convertToWav` can propagate: a `writeFile` failure, the spawn
`error` event, the rejection `ffmpeg exited with code ...`, or a `readFile`
failure. -/
inductive ConvError
  | writeFailed
  | launchFailed
  | ffmpegExit (code : Int)
  | readFailed
deriving DecidableEq

/-- `writeFile p`: afterwards a file is present at `p`. -/
def fsWrite (fs : List String) (p : String) : List String :=
  if p ∈ fs then fs else p :: fs

/-- `unlink p`: removes the file at `p`, or fails (ENOENT) when no file is
there, leaving the filesystem unchanged. -/
def fsUnlink (fs : List String) (p : String) : Except Unit (List String) :=
  if p ∈ fs then .ok (fs.filter (fun q => q != p)) else .error ()

/-- `unlink(p).catch(() => \x7b\x7d)` (src/server/routes.ts lines 73-74): the
deletion step with its error swallowed.  It is a total function — the
modelled finalizer cannot raise. -/
def fsUnlinkSwallow (fs : List String) (p : String) : List String :=
  match fsUnlink fs p with
  | .ok fs2 => fs2
  | .error _ => fs

/-- The `try` block of `convertToWav` (src/server/routes.ts lines 48-71):
write the input file, run ffmpeg, read the output file, with each exit path
(including thrown errors) returned as an `Except` value paired with the
filesystem it leaves behind. -/
def convBody (env : ConvEnv) (inPath outPath : String) (fs : List String) :
    Except ConvError (List Nat) × List String :=
  if env.writeOk then
    let fs1 := fsWrite fs inPath
    match env.spawn with
    | .launchError => (.error .launchFailed, fs1)
    | .exited code =>
      let fs2 := if env.outputCreated then fsWrite fs1 outPath else fs1
      if code = 0 then
        if env.readOk && fs2.contains outPath then (.ok env.outputBytes, fs2)
        else (.error .readFailed, fs2)
      else (.error (.ffmpegExit code), fs2)
  else (.error .writeFailed, if env.partialInput then fsWrite fs inPath else fs)

/-- `convertToWav` (src/server/routes.ts lines 44-76): the `try` body followed
by the `finally` block, which unlinks both transient paths with errors
swallowed and leaves the body's outcome untouched. -/
def convertToWav (env : ConvEnv) (inPath outPath : String) (fs : List String) :
    Except ConvError (List Nat) × List String :=
  let (r, fs1) := convBody env inPath outPath fs
  (r, fsUnlinkSwallow (fsUnlinkSwallow fs1 inPath) outPath)

/-- `ensureCompatibleFormat` (src/server/routes.ts lines 78-86): pass `wav`
and `mp3` buffers through unchanged, convert everything else.  The final
`Bool` records whether `convertToWav` (the subprocess pipeline) was invoked. -/
def ensureCompatibleFormat (env : ConvEnv) (inPath outPath : String) (fs : List String)
    (audioBuffer : List Nat) :
    Except ConvError (List Nat × AudioFormat) × List String × Bool :=
  let detected := detectAudioFormat audioBuffer
  if detected = .wav then (.ok (audioBuffer, .wav), fs, false)
  else if detected = .mp3 then (.ok (audioBuffer, .mp3), fs, false)
  else
    match convertToWav env inPath outPath fs with
    | (.ok wavBuffer, fs1) => (.ok (wavBuffer, .wav), fs1, true)
    | (.error e, fs1) => (.error e, fs1, true)

/-! ### TranscriptionRelay (POST /api/transcribe/stream handler,
src/server/routes.ts lines 113-156)

The handler is modelled as the sequence of response actions it performs.
Writes of `data: ...` frames are recorded as the wire event the frame
carries.  The upstream provider's behaviour is an explicit parameter, so
quantifying over it covers every path through the handler. -/

/-- One event yielded by the upstream streaming transcription call: either a
`transcript.text.delta` event carrying a fragment, or an event of any other
type (which the handler ignores). -/
inductive UpstreamEvent
  | textDelta (delta : List Char)
  | other
deriving DecidableEq

/-- A framed wire event of the hand-rolled protocol. -/
inductive WireEvent
  | delta (text : List Char)
  | done (text : List Char)
  | error (msg : List Char)
deriving DecidableEq

/-- One observable action on the Express response object. -/
inductive RespAction
  | jsonError (status : Nat)
  | setHeader (name value : String)
  | flushHeaders
  | write (e : WireEvent)
  | endResp
deriving DecidableEq

/-- How one invocation of the handler's fallible stages plays out:
`setupFail` — `ensureCompatibleFormat` / `toFile` / the upstream `create`
call threw (all of these sit after `flushHeaders` in the source);
`streamEvents es completes` — the upstream stream yielded `es` and then
either completed normally or threw. -/
inductive UpstreamOutcome
  | setupFail
  | streamEvents (events : List UpstreamEvent) (completes : Bool)

/-- The error message the handler reports on any caught exception
(`"Failed to transcribe"`, src/server/routes.ts line 150). -/
def failMsg : List Char := "Failed to transcribe".data

/-- The four header actions the handler performs before producing any body
(src/server/routes.ts lines 121-124). -/
def streamHeaders : List RespAction :=
  [.setHeader "Content-Type" "text/event-stream",
   .setHeader "Cache-Control" "no-cache, no-transform",
   .setHeader "X-Accel-Buffering" "no",
   .flushHeaders]

/-- The `for await` loop (src/server/routes.ts lines 138-143): forward each
`transcript.text.delta` event as a `delta` wire event and accumulate its
fragment into `fullText`; skip events of any other type.  Returns the writes
performed and the final accumulated text. -/
def relayLoop : List UpstreamEvent → List Char → List RespAction × List Char
  | [], fullText => ([], fullText)
  | .textDelta s :: es, fullText =>
    let (ws, ft) := relayLoop es (fullText ++ s)
    (.write (.delta s) :: ws, ft)
  | .other :: es, fullText => relayLoop es fullText

/-- The `catch` clause (src/server/routes.ts lines 147-155): with headers
already sent, write one `error` wire event and end the response; otherwise
answer with a 500 JSON error. -/
def streamCatch (headersSent : Bool) : List RespAction :=
  if headersSent then [.write (.error failMsg), .endResp]
  else [.jsonError 500]

/-- The `try` block of the streaming handler (src/server/routes.ts lines
114-146): the 400 guard on a missing/empty `audio` field, the header
commitment, the relay loop, and the final `done` frame.  Returns the actions
performed and whether the block threw. -/
def streamTryBody (audio : Option String) (up : UpstreamOutcome) :
    List RespAction × Bool :=
  match audio with
  | none => ([.jsonError 400], false)
  | some a =>
    if a = "" then ([.jsonError 400], false)
    else
      match up with
      | .setupFail => (streamHeaders, true)
      | .streamEvents es completes =>
        let (ws, ft) := relayLoop es []
        if completes then (streamHeaders ++ ws ++ [.write (.done ft), .endResp], false)
        else (streamHeaders ++ ws, true)

/-- The whole streaming handler: the `try` body, and on a thrown exception
the `catch` clause, dispatched on `res.headersSent` (derived here as: a
`flushHeaders` action has been performed). -/
def streamHandler (audio : Option String) (up : UpstreamOutcome) : List RespAction :=
  let (acts, threw) := streamTryBody audio up
  if threw then acts ++ streamCatch (decide (RespAction.flushHeaders ∈ acts)) else acts

/-- The fragments carried by the `transcript.text.delta` events of an
upstream event list, in order. -/
def upDeltas (es : List UpstreamEvent) : List (List Char) :=
  es.filterMap (fun e => match e with
    | .textDelta s => some s
    | .other => none)

/-! ### StreamDecoder (`transcribeAudio`, client API module)

The client decoder; JS strings are modelled as `List Char` and network
chunks as the text they decode to (the claims exercise ASCII payloads, on
which the streaming `TextDecoder` is the identity).  `JSON.parse` followed
by the `.type`/`.text`/`.error` property reads is modelled by a structural
parser for flat JSON objects with (escape-free) string keys and values —
exactly the shape of the protocol's frames; any other payload is a parse
failure, which the decoder swallows just as it swallows a `SyntaxError`. -/

/-- The left-brace character, `Char.ofNat 123`. -/
def lbrace : Char := Char.ofNat 123

/-- The right-brace character, `Char.ofNat 125`. -/
def rbrace : Char := Char.ofNat 125

/-- JS `buffer.split("\n")` on a char-list string: the segments between
newlines, keeping empty segments, the last segment being the tail after the
final newline (or the whole string when it holds no newline). -/
def splitOnNl : List Char → List (List Char)
  | [] => [[]]
  | c :: rest =>
    if c = '\n' then [] :: splitOnNl rest
    else
      match splitOnNl rest with
      | l :: ls => (c :: l) :: ls
      | [] => [[c]]

/-- The result of `JSON.parse` on a frame payload, restricted to the three
properties the decoder reads; a missing key is `none` (JS `undefined`). -/
structure ParsedEvent where
  type : Option (List Char)
  text : Option (List Char)
  error : Option (List Char)
deriving DecidableEq

/-- The parse of an object with no recognised keys. -/
def emptyEvent : ParsedEvent := ⟨none, none, none⟩

/-- Record one `"key":"value"` pair on the parse result; later occurrences of
a key overwrite earlier ones, unrecognised keys are retained by `JSON.parse`
but never read, so they are dropped here. -/
def setField (e : ParsedEvent) (k v : List Char) : ParsedEvent :=
  if k = "type".data then ⟨some v, e.text, e.error⟩
  else if k = "text".data then ⟨e.type, some v, e.error⟩
  else if k = "error".data then ⟨e.type, e.text, some v⟩
  else e

/-- Scan a JSON string body up to its closing quote: returns the content and
the remainder after the quote (no escape handling — a payload an escape
would be needed for is outside this model). -/
def scanStr : List Char → Option (List Char × List Char)
  | [] => none
  | c :: rest =>
    if c = '"' then some ([], rest)
    else
      match scanStr rest with
      | some (s, r) => some (c :: s, r)
      | none => none

/-- Scan one `"key":"value"` pair: returns key, value and the remainder. -/
def scanPair (cs : List Char) : Option (List Char × List Char × List Char) :=
  match cs with
  | c :: rest =>
    if c = '"' then
      match scanStr rest with
      | some (k, c1 :: c2 :: rest2) =>
        if c1 = ':' ∧ c2 = '"' then
          match scanStr rest2 with
          | some (v, rest3) => some (k, v, rest3)
          | none => none
        else none
      | _ => none
    else none
  | [] => none

/-- Parse the pair list of a JSON object body (after the opening brace),
fuelled by the input length: each pair is followed by a comma and more
pairs, or by the closing brace ending the input. -/
def parsePairs : Nat → List Char → ParsedEvent → Option ParsedEvent
  | 0, _, _ => none
  | n + 1, cs, e =>
    match scanPair cs with
    | some (k, v, c3 :: rest4) =>
      if c3 = rbrace then (if rest4 = [] then some (setField e k v) else none)
      else if c3 = ',' then parsePairs n rest4 (setField e k v)
      else none
    | _ => none

/-- `JSON.parse` on a frame payload, as the decoder observes it: a flat JSON
object yields its `type`/`text`/`error` string properties; anything else is
a syntax failure (`none`).  (A payload that is valid JSON but not an object
of string properties also yields `none`; the decoder treats both identically
— the event is skipped — so the distinction is unobservable.) -/
def parseEventJson (s : List Char) : Option ParsedEvent :=
  match s with
  | c :: rest =>
    if c = lbrace then
      if rest = [rbrace] then some emptyEvent
      else parsePairs (rest.length + 1) rest emptyEvent
    else none
  | [] => none

/-- The decoder's running state: the line-reassembly buffer, the accumulated
`fullText`, and the arguments of the `onProgress` calls made so far (the
observable callback trace). -/
structure DecState where
  buffer : List Char
  fullText : List Char
  calls : List (List Char)
deriving DecidableEq

/-- The placeholder for a JS `undefined` read of `parsed.text`: under the
string operations that can subsequently observe it, `undefined` coerces to
the string `"undefined"`.  (No claim exercises a `done` frame without a
`text` property; this choice only fixes a value for that corner.) -/
def undefinedText : List Char := "undefined".data

/-- The event marker prefix `"data: "`. -/
def dataMarker : List Char := "data: ".data

/-- The `try` block body dispatching one parsed event (client API module,
lines 46-53): a `delta` with truthy `text` appends the fragment and fires
the callback with the new total; a `done` replaces the total with the
carried text; an `error` throws an `Error` carrying the `error` property;
anything else falls through every branch and does nothing. -/
def dispatchEvent (p : ParsedEvent) (st : DecState) : Except (List Char) DecState :=
  if p.type = some "delta".data ∧ p.text.getD [] ≠ [] then
    let ft := st.fullText ++ p.text.getD []
    .ok ⟨st.buffer, ft, st.calls ++ [ft]⟩
  else if p.type = some "done".data then
    .ok ⟨st.buffer, p.text.getD undefinedText, st.calls⟩
  else if p.type = some "error".data then
    .error (p.error.getD [])
  else .ok st

/-- Process one complete line (client API module, lines 40-58): a line not
prefixed by `"data: "` is skipped; the remainder of a prefixed line is
parsed, a parse failure (`SyntaxError`) is swallowed, and a parsed event is
dispatched.  A thrown non-`SyntaxError` (the `error` event) propagates. -/
def processLine (line : List Char) (st : DecState) : Except (List Char) DecState :=
  if line.take 6 = dataMarker then
    match parseEventJson (line.drop 6) with
    | none => .ok st
    | some p => dispatchEvent p st
  else .ok st

/-- The `for (const line of lines)` loop: process the complete lines in
order, aborting (and discarding the remaining lines) as soon as a line
throws. -/
def processLines : List (List Char) → DecState → DecState × Option (List Char)
  | [], st => (st, none)
  | l :: ls, st =>
    match processLine l st with
    | .error m => (st, some m)
    | .ok st2 => processLines ls st2

/-- The chunk loop of `transcribeAudio` (client API module, lines 32-60):
append each chunk to the buffer, split on newline, keep the last (possibly
incomplete) segment as the new buffer, process the complete lines; a thrown
error aborts the loop, and stream end returns the final state. -/
def consumeLoop : List (List Char) → DecState → DecState × Option (List Char)
  | [], st => (st, none)
  | c :: cs, st =>
    let lines := splitOnNl (st.buffer ++ c)
    match processLines lines.dropLast ⟨lines.getLastD [], st.fullText, st.calls⟩ with
    | (st2, some m) => (st2, some m)
    | (st2, none) => consumeLoop cs st2

/-- `transcribeAudio` (client API module, lines 4-63), from the point where
the response body stream is read: given the decoded text of each network
chunk, returns the `onProgress` call trace and either the thrown error's
message or the returned `fullText`. -/
def transcribeAudio (chunks : List (List Char)) :
    List (List Char) × Except (List Char) (List Char) :=
  match consumeLoop chunks ⟨[], [], []⟩ with
  | (st, some m) => (st.calls, .error m)
  | (st, none) => (st.calls, .ok st.fullText)

/-! ### Wire-frame text encodings

Helper constructions used to state theorems about whole byte streams: the
exact text a relay frame of each kind consists of.  `keyVal` is written in
continuation style (the text after the closing quote is a parameter) so the
parser lemmas can peel one pair at a time. -/

/-- The text `"key":"value"` followed by `tail`. -/
def keyVal (k v tail : List Char) : List Char :=
  '"' :: (k ++ ('"' :: ':' :: '"' :: (v ++ ('"' :: tail))))

/-- The JSON payload of a `delta` frame carrying `t`, exactly as
`JSON.stringify` renders it for an escape-free `t`. -/
def payloadDelta (t : List Char) : List Char :=
  lbrace :: keyVal "type".data "delta".data (',' :: keyVal "text".data t [rbrace])

/-- The JSON payload of a `done` frame carrying `t`. -/
def payloadDone (t : List Char) : List Char :=
  lbrace :: keyVal "type".data "done".data (',' :: keyVal "text".data t [rbrace])

/-- The JSON payload of an `error` frame carrying `m`. -/
def payloadError (m : List Char) : List Char :=
  lbrace :: keyVal "type".data "error".data (',' :: keyVal "error".data m [rbrace])

/-- The full wire text of a `delta` frame: marker, payload, blank line. -/
def encDelta (t : List Char) : List Char := dataMarker ++ payloadDelta t ++ ['\n', '\n']

/-- The full wire text of a `done` frame. -/
def encDone (t : List Char) : List Char := dataMarker ++ payloadDone t ++ ['\n', '\n']

/-- The full wire text of an `error` frame. -/
def encError (m : List Char) : List Char := dataMarker ++ payloadError m ++ ['\n', '\n']

/-- A string `JSON.stringify` renders with no escape sequences and that fits
on one frame line: no quote, no backslash, no newline.  On such fragments
the structural parser above agrees with `JSON.parse`. -/
def simpleStr (s : List Char) : Prop := '"' ∉ s ∧ '\\' ∉ s ∧ '\n' ∉ s

/-- The `onProgress` call trace a sequence of delta fragments produces when
decoding starts from accumulated text `ft`: one call with the new running
total per non-empty fragment (an empty or absent `text` is falsy in JS and
fires no callback). -/
def deltaCalls (ft : List Char) : List (List Char) → List (List Char)
  | [] => []
  | t :: ts => (if t = [] then [] else [ft ++ t]) ++ deltaCalls (ft ++ t) ts

theorem scanStr_append (s r : List Char) (h : '"' ∉ s) :
    scanStr (s ++ '"' :: r) = some (s, r) := by
  induction s with
  | nil => rfl
  | cons c cs ih =>
    have hc : c ≠ '"' := fun hc => h (hc ▸ List.mem_cons_self c cs)
    have hcs : '"' ∉ cs := fun hm => h (List.mem_cons_of_mem c hm)
    simp [scanStr, hc, ih hcs]

theorem scanPair_keyVal (k v tail : List Char) (hk : '"' ∉ k) (hv : '"' ∉ v) :
    scanPair (keyVal k v tail) = some (k, v, tail) := by
  simp [keyVal, scanPair, scanStr_append _ _ hk, scanStr_append _ _ hv]

theorem parsePairs_close (k v : List Char) (hk : '"' ∉ k) (hv : '"' ∉ v) (n : Nat)
    (e : ParsedEvent) :
    parsePairs (n + 1) (keyVal k v [rbrace]) e = some (setField e k v) := by
  simp only [parsePairs]
  rw [scanPair_keyVal k v [rbrace] hk hv]
  simp

theorem parsePairs_comma (k v rest : List Char) (hk : '"' ∉ k) (hv : '"' ∉ v) (n : Nat)
    (e : ParsedEvent) :
    parsePairs (n + 1) (keyVal k v (',' :: rest)) e = parsePairs n rest (setField e k v) := by
  simp only [parsePairs]
  rw [scanPair_keyVal k v (',' :: rest) hk hv]
  have h1 : ¬ (',' = rbrace) := by decide
  simp [h1]

theorem parseEventJson_two (k1 v1 k2 v2 : List Char) (hk1 : '"' ∉ k1) (hv1 : '"' ∉ v1)
    (hk2 : '"' ∉ k2) (hv2 : '"' ∉ v2) :
    parseEventJson (lbrace :: keyVal k1 v1 (',' :: keyVal k2 v2 [rbrace])) =
      some (setField (setField emptyEvent k1 v1) k2 v2) := by
  have hne : keyVal k1 v1 (',' :: keyVal k2 v2 [rbrace]) ≠ [rbrace] := by
    intro h
    have h2 := congrArg (fun l => l.headD ' ') h
    simp [keyVal] at h2
    exact absurd h2 (by decide)
  have h1 : parseEventJson (lbrace :: keyVal k1 v1 (',' :: keyVal k2 v2 [rbrace])) =
      parsePairs ((keyVal k1 v1 (',' :: keyVal k2 v2 [rbrace])).length + 1)
        (keyVal k1 v1 (',' :: keyVal k2 v2 [rbrace])) emptyEvent := by
    simp [parseEventJson, hne]
  rw [h1, parsePairs_comma k1 v1 _ hk1 hv1]
  have hpos : 0 < (keyVal k1 v1 (',' :: keyVal k2 v2 [rbrace])).length := by
    simp [keyVal]
  have h2 : (keyVal k1 v1 (',' :: keyVal k2 v2 [rbrace])).length =
      ((keyVal k1 v1 (',' :: keyVal k2 v2 [rbrace])).length - 1) + 1 := by omega
  rw [h2, parsePairs_close k2 v2 hk2 hv2]

theorem parse_payloadDelta (t : List Char) (ht : '"' ∉ t) :
    parseEventJson (payloadDelta t) = some ⟨some "delta".data, some t, none⟩ := by
  rw [payloadDelta, parseEventJson_two _ _ _ _ (by decide) (by decide) (by decide) ht]
  rfl

theorem parse_payloadDone (t : List Char) (ht : '"' ∉ t) :
    parseEventJson (payloadDone t) = some ⟨some "done".data, some t, none⟩ := by
  rw [payloadDone, parseEventJson_two _ _ _ _ (by decide) (by decide) (by decide) ht]
  rfl

theorem parse_payloadError (m : List Char) (hm : '"' ∉ m) :
    parseEventJson (payloadError m) = some ⟨some "error".data, none, some m⟩ := by
  rw [payloadError, parseEventJson_two _ _ _ _ (by decide) (by decide) (by decide) hm]
  rfl

theorem dispatch_delta (t : List Char) (st : DecState) :
    dispatchEvent ⟨some "delta".data, some t, none⟩ st =
      .ok ⟨st.buffer, st.fullText ++ t,
           st.calls ++ if t = [] then [] else [st.fullText ++ t]⟩ := by
  by_cases h : t = []
  · subst h
    simp [dispatchEvent]
  · simp [dispatchEvent, h]

theorem dispatch_done (t : List Char) (st : DecState) :
    dispatchEvent ⟨some "done".data, some t, none⟩ st =
      .ok ⟨st.buffer, t, st.calls⟩ := by
  simp [dispatchEvent, show ¬("done".data = "delta".data) from by decide]

theorem dispatch_error (m : List Char) (st : DecState) :
    dispatchEvent ⟨some "error".data, none, some m⟩ st = .error m := by
  simp [dispatchEvent, show ¬("error".data = "delta".data) from by decide,
    show ¬("error".data = "done".data) from by decide]

theorem processLine_nil (st : DecState) : processLine [] st = .ok st := rfl

theorem processLine_marker (payload : List Char) (st : DecState) :
    processLine (dataMarker ++ payload) st =
      match parseEventJson payload with
      | none => .ok st
      | some p => dispatchEvent p st := by
  have h1 : (dataMarker ++ payload).take 6 = dataMarker := rfl
  have h2 : (dataMarker ++ payload).drop 6 = payload := rfl
  simp [processLine, h1, h2]

theorem splitOnNl_append (a b : List Char) (ha : '\n' ∉ a) :
    splitOnNl (a ++ '\n' :: b) = a :: splitOnNl b := by
  induction a with
  | nil => rfl
  | cons c cs ih =>
    have hc : c ≠ '\n' := fun hc => ha (hc ▸ List.mem_cons_self c cs)
    have hcs : '\n' ∉ cs := fun hm => ha (List.mem_cons_of_mem c hm)
    simp [splitOnNl, hc, ih hcs]

theorem payloadDelta_chars (t : List Char) (c : Char) (h : c ∈ payloadDelta t) :
    c ∈ t ∨ c ∈ payloadDelta [] := by
  simp only [payloadDelta, keyVal, List.mem_cons, List.mem_append] at h ⊢
  tauto

theorem payloadError_chars (m : List Char) (c : Char) (h : c ∈ payloadError m) :
    c ∈ m ∨ c ∈ payloadError [] := by
  simp only [payloadError, keyVal, List.mem_cons, List.mem_append] at h ⊢
  tauto

theorem noNl_deltaLine (t : List Char) (ht : '\n' ∉ t) :
    '\n' ∉ dataMarker ++ payloadDelta t := by
  intro h
  rcases List.mem_append.mp h with h | h
  · exact absurd h (by decide)
  · rcases payloadDelta_chars t _ h with h | h
    · exact ht h
    · exact absurd h (by decide)

theorem noNl_errorLine (m : List Char) (hm : '\n' ∉ m) :
    '\n' ∉ dataMarker ++ payloadError m := by
  intro h
  rcases List.mem_append.mp h with h | h
  · exact absurd h (by decide)
  · rcases payloadError_chars m _ h with h | h
    · exact hm h
    · exact absurd h (by decide)

theorem consumeLoop_frame (L : List Char) (hL : '\n' ∉ L) (cs : List (List Char))
    (ft : List Char) (calls : List (List Char)) :
    consumeLoop ((L ++ ['\n', '\n']) :: cs) ⟨[], ft, calls⟩ =
      match processLine L ⟨[], ft, calls⟩ with
      | .error m => (⟨[], ft, calls⟩, some m)
      | .ok st2 => consumeLoop cs st2 := by
  have hsplit : splitOnNl (([] : List Char) ++ (L ++ ['\n', '\n'])) = [L, [], []] := by
    rw [List.nil_append, show L ++ ['\n', '\n'] = L ++ '\n' :: ['\n'] from rfl,
      splitOnNl_append _ _ hL]
    rfl
  simp only [consumeLoop, hsplit]
  have hdrop : ([L, [], []] : List (List Char)).dropLast = [L, []] := rfl
  have hlast : ([L, [], []] : List (List Char)).getLastD [] = [] := rfl
  rw [hdrop, hlast]
  simp only [processLines]
  cases hp : processLine L ⟨[], ft, calls⟩ with
  | error m => simp
  | ok st2 => simp [processLines, processLine_nil]

theorem processLine_encDeltaLine (t : List Char) (ht : '"' ∉ t) (ft : List Char)
    (calls : List (List Char)) :
    processLine (dataMarker ++ payloadDelta t) ⟨[], ft, calls⟩ =
      .ok ⟨[], ft ++ t, calls ++ if t = [] then [] else [ft ++ t]⟩ := by
  rw [processLine_marker, parse_payloadDelta t ht]
  exact dispatch_delta t ⟨[], ft, calls⟩

theorem consumeLoop_deltas (ts : List (List Char)) (hts : ∀ t ∈ ts, simpleStr t)
    (ft : List Char) (calls : List (List Char)) :
    consumeLoop (ts.map encDelta) ⟨[], ft, calls⟩ =
      (⟨[], ft ++ List.flatten ts, calls ++ deltaCalls ft ts⟩, none) := by
  induction ts generalizing ft calls with
  | nil => simp [consumeLoop, deltaCalls]
  | cons t ts ih =>
    have ht := hts t (List.mem_cons_self t ts)
    have hts2 : ∀ u ∈ ts, simpleStr u := fun u hu => hts u (List.mem_cons_of_mem t hu)
    have henc : encDelta t = (dataMarker ++ payloadDelta t) ++ ['\n', '\n'] := by
      simp [encDelta]
    rw [List.map_cons, henc, consumeLoop_frame _ (noNl_deltaLine t ht.2.2),
      processLine_encDeltaLine t ht.1]
    show consumeLoop (ts.map encDelta)
        ⟨[], ft ++ t, calls ++ if t = [] then [] else [ft ++ t]⟩ = _
    rw [ih hts2]
    simp [deltaCalls, List.append_assoc]

theorem consumeLoop_append (a b : List (List Char)) (st : DecState) :
    consumeLoop (a ++ b) st =
      match consumeLoop a st with
      | (st1, none) => consumeLoop b st1
      | (st1, some m) => (st1, some m) := by
  induction a generalizing st with
  | nil => simp [consumeLoop]
  | cons c cs ih =>
    simp only [List.cons_append, consumeLoop]
    cases hp : processLines (splitOnNl (st.buffer ++ c)).dropLast
        ⟨(splitOnNl (st.buffer ++ c)).getLastD [], st.fullText, st.calls⟩ with
    | mk st2 om =>
      cases om with
      | none => simp [ih]
      | some m => simp

theorem consumeLoop_errorChunk (msg extra : List Char) (hm : simpleStr msg)
    (cs : List (List Char)) (ft : List Char) (calls : List (List Char)) :
    consumeLoop ((encError msg ++ extra) :: cs) ⟨[], ft, calls⟩ =
      (⟨(splitOnNl (encError msg ++ extra)).getLastD [], ft, calls⟩, some msg) := by
  have hform : ([] : List Char) ++ (encError msg ++ extra) =
      (dataMarker ++ payloadError msg) ++ '\n' :: ('\n' :: extra) := by
    simp [encError]
  have hsplit : splitOnNl (([] : List Char) ++ (encError msg ++ extra)) =
      (dataMarker ++ payloadError msg) :: [] :: splitOnNl extra := by
    rw [hform, splitOnNl_append _ _ (noNl_errorLine msg hm.2.2)]
    rfl
  have hline : processLine (dataMarker ++ payloadError msg)
      ⟨(splitOnNl (encError msg ++ extra)).getLastD [], ft, calls⟩ = .error msg := by
    rw [processLine_marker, parse_payloadError msg hm.1]
    exact dispatch_error msg _
  simp only [consumeLoop, hsplit]
  have hd : ((dataMarker ++ payloadError msg) :: [] :: splitOnNl extra).dropLast =
      (dataMarker ++ payloadError msg) :: ([] :: splitOnNl extra).dropLast := rfl
  rw [hd]
  simp only [processLines]
  rw [List.nil_append] at hsplit
  rw [hsplit] at hline ⊢
  rw [hline]

theorem relayLoop_spec (es : List UpstreamEvent) (ft : List Char) :
    relayLoop es ft =
      ((upDeltas es).map (fun s => RespAction.write (.delta s)),
        ft ++ (upDeltas es).flatten) := by
  induction es generalizing ft with
  | nil => simp [relayLoop, upDeltas]
  | cons e es ih =>
    cases e with
    | textDelta s =>
      simp [relayLoop, upDeltas, List.filterMap_cons, ih, List.append_assoc]
    | other =>
      simp [relayLoop, upDeltas, List.filterMap_cons, ih]

theorem mem_fsWrite (q p : String) (fs : List String) :
    q ∈ fsWrite fs p ↔ q = p ∨ q ∈ fs := by
  by_cases h : p ∈ fs <;> simp [fsWrite, h]
  exact fun e => e ▸ h

theorem not_mem_fsUnlinkSwallow_self (fs : List String) (p : String) :
    p ∉ fsUnlinkSwallow fs p := by
  by_cases h : p ∈ fs <;> simp [fsUnlinkSwallow, fsUnlink, h]

theorem mem_fsUnlinkSwallow_ne (fs : List String) (p q : String) (h : q ≠ p) :
    q ∈ fsUnlinkSwallow fs p ↔ q ∈ fs := by
  by_cases hp : p ∈ fs <;> simp [fsUnlinkSwallow, fsUnlink, hp, h]

theorem convBody_frame (env : ConvEnv) (inPath outPath : String) (fs0 : List String)
    (p : String) (hp1 : p ≠ inPath) (hp2 : p ≠ outPath) :
    p ∈ (convBody env inPath outPath fs0).2 ↔ p ∈ fs0 := by
  rcases env with ⟨w, pi, sp, oc, ro, ob⟩
  cases w <;> cases sp <;> cases pi <;> cases oc <;>
    simp [convBody, mem_fsWrite, hp1, hp2] <;>
    split_ifs <;> simp [mem_fsWrite, hp1, hp2]

/-- Claim C1: every `convertToWav` call deletes both uniquely-named transient
locations before returning, on every exit path (success, `ConversionFailure`
from a non-zero exit or a launch failure, or a thrown write/read error); any
other file is untouched; and the finalizer never raises — the call's outcome
is exactly the `try` body's outcome, unaffected by the deletion step. -/
theorem convert_cleanup_total (env : ConvEnv) (inPath outPath : String) (fs0 : List String) :
    inPath ∉ (convertToWav env inPath outPath fs0).2 ∧
    outPath ∉ (convertToWav env inPath outPath fs0).2 ∧
    (∀ p : String, p ≠ inPath → p ≠ outPath →
      (p ∈ (convertToWav env inPath outPath fs0).2 ↔ p ∈ fs0)) ∧
    (convertToWav env inPath outPath fs0).1 = (convBody env inPath outPath fs0).1 := by
  rcases hb : convBody env inPath outPath fs0 with ⟨r, fs1⟩
  have hsnd : (convertToWav env inPath outPath fs0).2 =
      fsUnlinkSwallow (fsUnlinkSwallow fs1 inPath) outPath := by
    simp [convertToWav, hb]
  have hfst : (convertToWav env inPath outPath fs0).1 = r := by
    simp [convertToWav, hb]
  refine ⟨?_, ?_, ?_, ?_⟩
  · rw [hsnd]
    by_cases h : inPath = outPath
    · rw [h]
      exact not_mem_fsUnlinkSwallow_self _ _
    · rw [mem_fsUnlinkSwallow_ne _ _ _ h]
      exact not_mem_fsUnlinkSwallow_self _ _
  · rw [hsnd]
    exact not_mem_fsUnlinkSwallow_self _ _
  · intro p hp1 hp2
    rw [hsnd, mem_fsUnlinkSwallow_ne _ _ _ hp2, mem_fsUnlinkSwallow_ne _ _ _ hp1]
    have := convBody_frame env inPath outPath fs0 p hp1 hp2
    rwa [hb] at this
  · simp [hfst, hb]

theorem convert_cleanup_total_witness :
    ("keep.txt" ∈ (convertToWav ⟨true, false, .exited 1, true, true, []⟩
        "in.tmp" "out.wav" ["keep.txt"]).2 ↔ "keep.txt" ∈ ["keep.txt"]) ∧
    "in.tmp" ∉ (convertToWav ⟨true, false, .exited 1, true, true, []⟩
        "in.tmp" "out.wav" ["keep.txt"]).2 :=
  ⟨(convert_cleanup_total ⟨true, false, .exited 1, true, true, []⟩
      "in.tmp" "out.wav" ["keep.txt"]).2.2.1 "keep.txt" (by decide) (by decide),
   (convert_cleanup_total ⟨true, false, .exited 1, true, true, []⟩
      "in.tmp" "out.wav" ["keep.txt"]).1⟩

/-- Claim C9: a buffer classified `wav` or `mp3` passes through
`ensureCompatibleFormat` unchanged, tagged with that same format, with no
conversion subprocess invoked; the converter is invoked exactly when the
classification is neither `wav` nor `mp3`. -/
theorem passthrough_no_conversion (env : ConvEnv) (inPath outPath : String)
    (fs : List String) (bs : List Nat) :
    (detectAudioFormat bs = .wav →
      ensureCompatibleFormat env inPath outPath fs bs = (.ok (bs, .wav), fs, false)) ∧
    (detectAudioFormat bs = .mp3 →
      ensureCompatibleFormat env inPath outPath fs bs = (.ok (bs, .mp3), fs, false)) ∧
    ((ensureCompatibleFormat env inPath outPath fs bs).2.2 = true ↔
      detectAudioFormat bs ≠ .wav ∧ detectAudioFormat bs ≠ .mp3) := by
  refine ⟨fun h => by simp [ensureCompatibleFormat, h], fun h => by simp [ensureCompatibleFormat, h], ?_⟩
  by_cases hw : detectAudioFormat bs = .wav
  · simp [ensureCompatibleFormat, hw]
  · by_cases hm : detectAudioFormat bs = .mp3
    · simp [ensureCompatibleFormat, hw, hm]
    · rcases hc : convertToWav env inPath outPath fs with ⟨r, fs1⟩
      cases r <;> simp [ensureCompatibleFormat, hw, hm, hc]

theorem passthrough_no_conversion_witness :
    ensureCompatibleFormat ⟨true, false, .exited 0, true, true, []⟩ "i" "o" []
      [0x52, 0x49, 0x46, 0x46, 0, 0, 0, 0, 0, 0, 0, 0] =
      (.ok ([0x52, 0x49, 0x46, 0x46, 0, 0, 0, 0, 0, 0, 0, 0], .wav), [], false) :=
  (passthrough_no_conversion ⟨true, false, .exited 0, true, true, []⟩ "i" "o" []
    [0x52, 0x49, 0x46, 0x46, 0, 0, 0, 0, 0, 0, 0, 0]).1 (by decide)

/-- Claim C5: `detectAudioFormat` agrees everywhere with the spec's
signature-table classifier `classifySpec` — short buffers (fewer than 12
bytes) and buffers matching no signature yield `unknown`, the five signature
rows are tested in the stated priority order with the first match winning,
and both functions are total (the embedding never throws). -/
theorem detect_eq_spec (bs : List Nat) : detectAudioFormat bs = classifySpec bs := by
  by_cases h : bs.length < 12
  · simp [detectAudioFormat, classifySpec, h]
  · rcases bs with _|⟨b0,_|⟨b1,_|⟨b2,_|⟨b3,_|⟨b4,_|⟨b5,_|⟨b6,_|⟨b7,rest⟩⟩⟩⟩⟩⟩⟩⟩ <;>
      try (exfalso; apply h; simp; done)
    have g0 : (b0 :: b1 :: b2 :: b3 :: b4 :: b5 :: b6 :: b7 :: rest).getD 0 0 = b0 := rfl
    have g1 : (b0 :: b1 :: b2 :: b3 :: b4 :: b5 :: b6 :: b7 :: rest).getD 1 0 = b1 := rfl
    have g2 : (b0 :: b1 :: b2 :: b3 :: b4 :: b5 :: b6 :: b7 :: rest).getD 2 0 = b2 := rfl
    have g3 : (b0 :: b1 :: b2 :: b3 :: b4 :: b5 :: b6 :: b7 :: rest).getD 3 0 = b3 := rfl
    have g4 : (b0 :: b1 :: b2 :: b3 :: b4 :: b5 :: b6 :: b7 :: rest).getD 4 0 = b4 := rfl
    have g5 : (b0 :: b1 :: b2 :: b3 :: b4 :: b5 :: b6 :: b7 :: rest).getD 5 0 = b5 := rfl
    have g6 : (b0 :: b1 :: b2 :: b3 :: b4 :: b5 :: b6 :: b7 :: rest).getD 6 0 = b6 := rfl
    have g7 : (b0 :: b1 :: b2 :: b3 :: b4 :: b5 :: b6 :: b7 :: rest).getD 7 0 = b7 := rfl
    have hd : (b0 :: b1 :: b2 :: b3 :: b4 :: b5 :: b6 :: b7 :: rest).drop 4
        = b4 :: b5 :: b6 :: b7 :: rest := rfl
    have pw : ([0x52, 0x49, 0x46, 0x46] <+: (b0 :: b1 :: b2 :: b3 :: b4 :: b5 :: b6 :: b7 :: rest))
        ↔ (b0 = 0x52 ∧ b1 = 0x49 ∧ b2 = 0x46 ∧ b3 = 0x46) := by
      simp only [List.cons_prefix_cons, List.nil_prefix, and_true]; omega
    have pweb : ([0x1a, 0x45, 0xdf, 0xa3] <+: (b0 :: b1 :: b2 :: b3 :: b4 :: b5 :: b6 :: b7 :: rest))
        ↔ (b0 = 0x1a ∧ b1 = 0x45 ∧ b2 = 0xdf ∧ b3 = 0xa3) := by
      simp only [List.cons_prefix_cons, List.nil_prefix, and_true]; omega
    have pid3 : ([0x49, 0x44, 0x33] <+: (b0 :: b1 :: b2 :: b3 :: b4 :: b5 :: b6 :: b7 :: rest))
        ↔ (b0 = 0x49 ∧ b1 = 0x44 ∧ b2 = 0x33) := by
      simp only [List.cons_prefix_cons, List.nil_prefix, and_true]; omega
    have pmp4 : ([0x66, 0x74, 0x79, 0x70] <+: (b4 :: b5 :: b6 :: b7 :: rest))
        ↔ (b4 = 0x66 ∧ b5 = 0x74 ∧ b6 = 0x79 ∧ b7 = 0x70) := by
      simp only [List.cons_prefix_cons, List.nil_prefix, and_true]; omega
    have pogg : ([0x4f, 0x67, 0x67, 0x53] <+: (b0 :: b1 :: b2 :: b3 :: b4 :: b5 :: b6 :: b7 :: rest))
        ↔ (b0 = 0x4f ∧ b1 = 0x67 ∧ b2 = 0x67 ∧ b3 = 0x53) := by
      simp only [List.cons_prefix_cons, List.nil_prefix, and_true]; omega
    simp only [detectAudioFormat, classifySpec]
    simp only [g0, g1, g2, g3, g4, g5, g6, g7, hd, pw, pweb,
      pid3, pmp4, pogg, List.mem_cons, List.not_mem_nil, or_false]

/-- Claim C2: when the upstream stream yields its events and completes
normally, the streaming endpoint's trace after the headers is exactly one
`delta` wire event per upstream delta fragment, carrying that fragment in
upstream order, followed by exactly one `done` wire event carrying the
concatenation of all the fragments, followed by the close of the
connection. -/
theorem stream_success_trace (a : String) (ha : a ≠ "") (es : List UpstreamEvent) :
    streamHandler (some a) (.streamEvents es true) =
      streamHeaders ++ (upDeltas es).map (fun s => RespAction.write (.delta s)) ++
        [.write (.done (upDeltas es).flatten), .endResp] := by
  simp [streamHandler, streamTryBody, ha, relayLoop_spec]

theorem stream_success_trace_witness :
    streamHandler (some "QUJD") (.streamEvents [.textDelta "Hel".data, .other,
        .textDelta "lo".data] true) =
      streamHeaders ++
        [.write (.delta "Hel".data), .write (.delta "lo".data),
         .write (.done "Hello".data), .endResp] := by
  rw [stream_success_trace "QUJD" (by decide)]
  rfl

/-- Claim C4: the failure channel of the streaming endpoint is decided by
whether headers have been flushed: a missing or empty `audio` field is
answered with a 400 JSON error and no wire event; an exception after the
flush (a setup failure or a mid-stream failure) produces exactly one `error`
wire event followed by the close, with no further events; the catch clause
with headers not yet sent answers with a 500 JSON error and never a wire
event. -/
theorem stream_error_channels :
    (∀ up, streamHandler none up = [.jsonError 400]) ∧
    (∀ up, streamHandler (some "") up = [.jsonError 400]) ∧
    (∀ a : String, a ≠ "" → streamHandler (some a) .setupFail =
      streamHeaders ++ [.write (.error failMsg), .endResp]) ∧
    (∀ (a : String) (es : List UpstreamEvent), a ≠ "" →
      streamHandler (some a) (.streamEvents es false) =
        streamHeaders ++ (upDeltas es).map (fun s => RespAction.write (.delta s)) ++
          [.write (.error failMsg), .endResp]) ∧
    streamCatch false = [.jsonError 500] ∧
    streamCatch true = [.write (.error failMsg), .endResp] := by
  refine ⟨fun up => rfl, fun up => by simp [streamHandler, streamTryBody], ?_, ?_, rfl, rfl⟩
  · intro a ha
    have hmem : RespAction.flushHeaders ∈ streamHeaders := by decide
    simp [streamHandler, streamTryBody, ha, streamCatch, hmem]
  · intro a es ha
    have hmem : RespAction.flushHeaders ∈
        streamHeaders ++ (relayLoop es []).1 := List.mem_append_left _ (by decide)
    simp [streamHandler, streamTryBody, ha, streamCatch, hmem, relayLoop_spec,
      List.append_assoc]
    decide

theorem stream_error_channels_witness :
    streamHandler (some "QUJD") .setupFail =
      streamHeaders ++ [.write (.error failMsg), .endResp] ∧
    streamHandler (some "QUJD") (.streamEvents [.textDelta "Hi".data] false) =
      streamHeaders ++ [.write (.delta "Hi".data), .write (.error failMsg), .endResp] := by
  constructor
  · exact stream_error_channels.2.2.1 "QUJD" (by decide)
  · rw [stream_error_channels.2.2.2.1 "QUJD" [.textDelta "Hi".data] (by decide)]
    rfl

/-- Claim C3: fed the three-chunk byte sequence of spec test 3 — a `delta`
frame for `"Hello"` split across the first two chunks, a `delta` frame for
`" world"` completing in the second chunk, and a `done` frame carrying
`"Hello world!"` in the third — `transcribeAudio` invokes the progress
callback with `"Hello"` then `"Hello world"` and returns `"Hello world!"`:
lines are reassembled across chunk boundaries, delta texts are appended, and
the `done` text replaces the running total. -/
theorem decoder_spec_example :
    transcribeAudio ["data: \x7b\"type\":\"delta\",\"text\":\"Hel".data,
      "lo\"\x7d\n\ndata: \x7b\"type\":\"delta\",\"text\":\" world\"\x7d\n\n".data,
      "data: \x7b\"type\":\"done\",\"text\":\"Hello world!\"\x7d\n\n".data] =
    (["Hello".data, "Hello world".data], .ok "Hello world!".data) := by
  rfl

/-- Claim C6: a stream consisting only of `delta` frames, with no terminating
`done` or `error`, followed by stream end, makes `transcribeAudio` return
normally with the concatenation of the delta texts in arrival order (the
callback trace being one call per non-empty fragment). -/
theorem deltaOnly_returns_concat (ts : List (List Char)) (hts : ∀ t ∈ ts, simpleStr t) :
    transcribeAudio (ts.map encDelta) = (deltaCalls [] ts, .ok (List.flatten ts)) := by
  simp only [transcribeAudio, consumeLoop_deltas ts hts [] [], List.nil_append]

theorem deltaOnly_returns_concat_witness :
    transcribeAudio ([" Hi".data, " there".data].map encDelta) =
      (deltaCalls [] [" Hi".data, " there".data],
        .ok (List.flatten [" Hi".data, " there".data])) :=
  deltaOnly_returns_concat [" Hi".data, " there".data]
    (by simp only [simpleStr]; decide)

/-- Claim C7: a stream containing an `error` frame makes `transcribeAudio`
raise an error carrying the message from the frame's `error` field, without
processing any line that follows the frame in the already-buffered input:
whatever text `extra` follows the frame in its chunk, and whatever chunks
`rest` follow, neither the result nor the callback trace is affected. -/
theorem errorEvent_raises (ts : List (List Char)) (msg extra : List Char)
    (rest : List (List Char)) (hts : ∀ t ∈ ts, simpleStr t) (hm : simpleStr msg) :
    transcribeAudio (ts.map encDelta ++ (encError msg ++ extra) :: rest) =
      ((transcribeAudio (ts.map encDelta)).1, .error msg) := by
  simp only [transcribeAudio, consumeLoop_append, consumeLoop_deltas ts hts [] [],
    List.nil_append]
  rw [consumeLoop_errorChunk msg extra hm rest (List.flatten ts) (deltaCalls [] ts)]

theorem errorEvent_raises_witness :
    transcribeAudio ([" Hi".data].map encDelta ++
        (encError "boom".data ++ "data: junk\n\n".data) :: ["later".data]) =
      ((transcribeAudio ([" Hi".data].map encDelta)).1, .error "boom".data) :=
  errorEvent_raises [" Hi".data] "boom".data "data: junk\n\n".data ["later".data]
    (by simp only [simpleStr]; decide) (by simp only [simpleStr]; decide)

/-- Claim C8: a complete line not prefixed by the event marker `"data: "` is
skipped, and a prefixed line whose payload fails to parse is skipped
silently (the swallowed `SyntaxError`); in both cases the decoder state —
running total and callback trace — is unchanged, no error is surfaced, and
decoding continues with the next line. -/
theorem junk_lines_skipped :
    (∀ (line : List Char) (st : DecState), line.take 6 ≠ dataMarker →
      processLine line st = .ok st) ∧
    (∀ (line : List Char) (st : DecState), line.take 6 = dataMarker →
      parseEventJson (line.drop 6) = none → processLine line st = .ok st) ∧
    (∀ (l : List Char) (ls : List (List Char)) (st : DecState),
      processLine l st = .ok st → processLines (l :: ls) st = processLines ls st) := by
  refine ⟨fun line st h => by simp [processLine, h],
    fun line st h1 h2 => by simp [processLine, h1, h2],
    fun l ls st h => by simp [processLines, h]⟩

theorem junk_lines_skipped_witness :
    processLine "nope".data ⟨[], [], []⟩ = .ok ⟨[], [], []⟩ ∧
    processLine "data: not-json".data ⟨[], [], []⟩ = .ok ⟨[], [], []⟩ :=
  ⟨junk_lines_skipped.1 "nope".data ⟨[], [], []⟩ (by decide),
   junk_lines_skipped.2.1 "data: not-json".data ⟨[], [], []⟩ (by decide) (by rfl)⟩

/-- Claim C10: a `delta` event whose `text` is absent or the empty string is
a no-op — the running total is unchanged and the progress callback does not
fire (JS falsiness of `parsed.text`), whereas a `delta` event with non-empty
text appends it and fires the callback with the new total: the callback
fires once per non-empty delta, not once per delta. -/
theorem emptyDelta_noop :
    (∀ (p : ParsedEvent) (st : DecState), p.type = some "delta".data →
      (p.text = none ∨ p.text = some []) → dispatchEvent p st = .ok st) ∧
    (∀ (st : DecState) (t : List Char), t ≠ [] →
      dispatchEvent ⟨some "delta".data, some t, none⟩ st =
        .ok ⟨st.buffer, st.fullText ++ t, st.calls ++ [st.fullText ++ t]⟩) := by
  constructor
  · rintro ⟨ty, tx, er⟩ st h htx
    rcases htx with h2 | h2 <;> subst h <;> subst h2 <;>
      simp [dispatchEvent, show ¬("delta".data = "done".data) from by decide,
        show ¬("delta".data = "error".data) from by decide]
  · intro st t ht
    simp [dispatchEvent, ht]

theorem emptyDelta_noop_witness :
    dispatchEvent ⟨some "delta".data, some [], none⟩ ⟨[], "Hi".data, []⟩ =
      .ok ⟨[], "Hi".data, []⟩ ∧
    dispatchEvent ⟨some "delta".data, some "!".data, none⟩ ⟨[], "Hi".data, []⟩ =
      .ok ⟨[], "Hi!".data, ["Hi!".data]⟩ := by
  constructor
  · exact emptyDelta_noop.1 ⟨some "delta".data, some [], none⟩ ⟨[], "Hi".data, []⟩
      rfl (Or.inr rfl)
  · rw [emptyDelta_noop.2 ⟨[], "Hi".data, []⟩ "!".data (by decide)]
    rfl
